import Mathlib

/-!
Verification development for hwpx_image_compressor_v3_advanced.py
(class HWPXImageCompressorAdvanced).

The program's image work is done through the PIL library, the base64 module
and xml.etree.ElementTree.  Those external codecs are modelled as abstract
structures of pure functions (PILModel, B64Model, XMLModel); the program's
own control flow — the quality/scale search loops, the skip-if-small
branches, the per-file passes and the archive pipeline — is translated
directly from the source.  Bytes are lists of naturals; a byte string's
size is its length.
-/

/-- Abstract model of the PIL operations used by compress_image.
`decode` is Image.open (None on failure, source line 42-44); `normalize`
is the colour-mode normalization block (lines 46-54: RGBA/LA/P composited
onto white, other modes converted to RGB); `encode img q` is
img.save(format='JPEG', quality=q, optimize=True) returning the output
bytes (lines 59-60, 72-73, 82-83); `resizeStep img k` is
img.resize((int(w*scale), int(h*scale)), LANCZOS) at the k-th iteration of
the scale loop (line 71).  In Python float arithmetic the loop
`scale = 0.9; while scale > 0.3: ... scale -= 0.1` executes exactly seven
iterations (scale values 0.9, 0.8, 0.7000000000000001, …,
0.30000000000000016, the accumulated rounding error keeping the last value
above 0.3), so k ranges over 0..6 and step 6 is the maximally-downscaled,
scale-0.3 candidate. -/
structure PILModel (Img : Type) where
  decode : List Nat → Option Img
  normalize : Img → Img
  encode : Img → Nat → List Nat
  resizeStep : Img → Nat → Img

/-- Quality loop of compress_image (source lines 57-66):
`quality = 95; while quality > 5: save(quality); if size <= target: return;
quality -= 5`.  The fuel argument only bounds the recursion (each step
lowers the quality by 5, so fuel = q suffices); the returned value is the
first encoding whose size is within the target, or none when the loop
falls through. -/
def qualitySearchAux {Img : Type} (pil : PILModel Img) (img : Img) (target : Nat) :
    Nat → Nat → Option (List Nat)
  | 0, _ => none
  | fuel + 1, q =>
    if 5 < q then
      let out := pil.encode img q
      if out.length ≤ target then some out
      else qualitySearchAux pil img target fuel (q - 5)
    else none

/-- Quality search started the way compress_image starts it. -/
def qualitySearch {Img : Type} (pil : PILModel Img) (img : Img) (target : Nat)
    (q : Nat) : Option (List Nat) :=
  qualitySearchAux pil img target q q

/-- Scale loop of compress_image plus its fallback (source lines 69-84):
`scale = 0.9; while scale > 0.3: resized = resize(scale); save(85);
if size <= target: return; scale -= 0.1` and then, after the loop,
`resized.save(quality=60)` on the variable left by the last iteration.
`remaining` counts the iterations still to come after the current one
(the Python float loop runs seven times, so the entry point uses
remaining = 6, k = 0); when the last iteration fails the fallback encodes
that same step-6 resize at quality 60. -/
def scaleSearchFrom {Img : Type} (pil : PILModel Img) (img : Img) (target : Nat) :
    Nat → Nat → List Nat
  | 0, k =>
    let resized := pil.resizeStep img k
    let out := pil.encode resized 85
    if out.length ≤ target then out
    else pil.encode resized 60
  | remaining + 1, k =>
    let resized := pil.resizeStep img k
    let out := pil.encode resized 85
    if out.length ≤ target then out
    else scaleSearchFrom pil img target remaining (k + 1)

/-- compress_image (source lines 39-84).  Decode failure returns the input
bytes with tag 'original'; otherwise the normalized image goes through the
quality search, then the scale search, then the quality-60 fallback, every
success path returning tag 'jpg'. -/
def compress_image {Img : Type} (pil : PILModel Img) (target : Nat)
    (image_data : List Nat) : List Nat × String :=
  match pil.decode image_data with
  | none => (image_data, "original")
  | some img0 =>
    let img := pil.normalize img0
    match qualitySearch pil img target 95 with
    | some out => (out, "jpg")
    | none => (scaleSearchFrom pil img target 6 0, "jpg")

/-- Concrete instance of the PIL model used to evaluate the control flow on
closed inputs: an image is its decoded byte count, encoding at quality q
yields q/10 + size/100 bytes, resizing at step k drops the size. -/
def toyPIL : PILModel Nat where
  decode bs := if bs.length = 0 then none else some bs.length
  normalize n := n
  encode n q := List.replicate (q / 10 + n / 100 + 1) 0
  resizeStep n k := n / (k + 2)

/-- C7: for every input whose bytes cannot be decoded as an image,
compress_image returns the input bytes unchanged with outcome 'original';
decode failure is never raised as an error (the function is total) and
never alters the payload. -/
theorem C7_decode_failure_unchanged {Img : Type} (pil : PILModel Img)
    (target : Nat) (image_data : List Nat)
    (h : pil.decode image_data = none) :
    compress_image pil target image_data = (image_data, "original") := by
  simp [compress_image, h]

/-- Witness for C7 at a concrete undecodable input. -/
theorem C7_witness :
    toyPIL.decode [] = none ∧
      compress_image toyPIL 100 [] = ([], "original") :=
  ⟨by decide, C7_decode_failure_unchanged toyPIL 100 [] (by decide)⟩

/-- Quality levels the loop visits, mirrored from the same loop structure
as qualitySearchAux (the level is recorded where the loop would encode). -/
def qualityLevelsAux : Nat → Nat → List Nat
  | 0, _ => []
  | fuel + 1, q => if 5 < q then q :: qualityLevelsAux fuel (q - 5) else []

/-- Quality levels visited starting from 95 as compress_image does. -/
def qualityLevels : List Nat := qualityLevelsAux 95 95

theorem qualitySearchAux_eq_find {Img : Type} (pil : PILModel Img) (img : Img)
    (target : Nat) :
    ∀ fuel q, qualitySearchAux pil img target fuel q =
      (List.find? (fun lv => (pil.encode img lv).length ≤ target)
          (qualityLevelsAux fuel q)).map (pil.encode img) := by
  intro fuel
  induction fuel with
  | zero => intro q; simp [qualitySearchAux, qualityLevelsAux]
  | succ n ih =>
    intro q
    by_cases h5 : 5 < q
    · by_cases hle : (pil.encode img q).length ≤ target
      · simp [qualitySearchAux, qualityLevelsAux, h5, hle, List.find?]
      · simp [qualitySearchAux, qualityLevelsAux, h5, hle, List.find?, ih]
    · simp [qualitySearchAux, qualityLevelsAux, h5]

theorem qualitySearchAux_le {Img : Type} (pil : PILModel Img) (img : Img)
    (target : Nat) :
    ∀ fuel q out, qualitySearchAux pil img target fuel q = some out →
      out.length ≤ target := by
  intro fuel
  induction fuel with
  | zero => intro q out h; simp [qualitySearchAux] at h
  | succ n ih =>
    intro q out h
    by_cases h5 : 5 < q
    · by_cases hle : (pil.encode img q).length ≤ target
      · simp [qualitySearchAux, h5, hle] at h
        exact h ▸ hle
      · simp [qualitySearchAux, h5, hle] at h
        exact ih _ _ h
    · simp [qualitySearchAux, h5] at h

/-- C3: the quality search tries JPEG encodings at levels 95, 90, …
down to 10 (stepping by 5), returns the first whose size is within the
target, and yields none — sending compress_image into the scale search —
exactly when every one of those levels fails (the loop guard quality > 5
having run out).  The encode field models save(format='JPEG', quality=q,
optimize=True). -/
theorem C3_quality_search {Img : Type} (pil : PILModel Img) (img : Img)
    (target : Nat) :
    qualitySearch pil img target 95 =
      (List.find? (fun lv => (pil.encode img lv).length ≤ target)
          qualityLevels).map (pil.encode img)
    ∧ (qualitySearch pil img target 95 = none ↔
        ∀ lv ∈ qualityLevels, target < (pil.encode img lv).length)
    ∧ qualityLevels =
        [95, 90, 85, 80, 75, 70, 65, 60, 55, 50, 45, 40, 35, 30, 25, 20, 15, 10]
    ∧ ∀ data img0, pil.decode data = some img0 →
        qualitySearch pil (pil.normalize img0) target 95 = none →
        compress_image pil target data =
          (scaleSearchFrom pil (pil.normalize img0) target 6 0, "jpg") := by
  refine ⟨qualitySearchAux_eq_find pil img target 95 95, ?_, by decide, ?_⟩
  · rw [qualitySearch, qualitySearchAux_eq_find pil img target 95 95]
    simp [List.find?_eq_none, qualityLevels]
  · intro data img0 hdec hq
    simp [compress_image, hdec, hq]

/-- Witness for C3 at a concrete input on which every quality level fails
and compress_image falls through to the scale search. -/
theorem C3_witness :
    (toyPIL.decode [1, 2, 3] = some 3 ∧
      qualitySearch toyPIL (toyPIL.normalize 3) 1 95 = none) ∧
      compress_image toyPIL 1 [1, 2, 3] =
        (scaleSearchFrom toyPIL (toyPIL.normalize 3) 1 6 0, "jpg") :=
  ⟨⟨by decide, by decide⟩,
    (C3_quality_search toyPIL 3 1).2.2.2 [1, 2, 3] 3 (by decide) (by decide)⟩

theorem scaleSearchFrom_spec {Img : Type} (pil : PILModel Img) (img : Img)
    (target : Nat) :
    ∀ remaining k,
      (scaleSearchFrom pil img target remaining k).length ≤ target ∨
        scaleSearchFrom pil img target remaining k =
          pil.encode (pil.resizeStep img (k + remaining)) 60 := by
  intro remaining
  induction remaining with
  | zero =>
    intro k
    by_cases hle : (pil.encode (pil.resizeStep img k) 85).length ≤ target
    · left; simp [scaleSearchFrom, hle]
    · right; simp [scaleSearchFrom, hle]
  | succ n ih =>
    intro k
    by_cases hle : (pil.encode (pil.resizeStep img k) 85).length ≤ target
    · left; simp [scaleSearchFrom, hle]
    · have h := ih (k + 1)
      rw [Nat.add_right_comm k 1 n] at h
      simpa [scaleSearchFrom, hle] using h

/-- C1: for every decodable input, the result of compress_image either has
size within the target budget or is exactly the quality-60 encoding of the
maximally-downscaled candidate (the step-6, scale-0.3 resize of the
normalized image left by the last scale-loop iteration); and the function
is deterministic — identical input bytes and target give identical output.
The claim restricts attention to inputs larger than the target; the code
never re-checks that, so the property holds with that hypothesis in
particular. -/
theorem C1_budget_or_fallback {Img : Type} (pil : PILModel Img) (target : Nat)
    (data : List Nat) (img0 : Img)
    (hdec : pil.decode data = some img0) (_hbig : target < data.length) :
    ((compress_image pil target data).1.length ≤ target ∨
      (compress_image pil target data).1 =
        pil.encode (pil.resizeStep (pil.normalize img0) 6) 60)
    ∧ ∀ data2, data2 = data →
        compress_image pil target data2 = compress_image pil target data := by
  refine ⟨?_, fun data2 h => by rw [h]⟩
  have hc : compress_image pil target data =
      (match qualitySearch pil (pil.normalize img0) target 95 with
        | some out => (out, "jpg")
        | none => (scaleSearchFrom pil (pil.normalize img0) target 6 0, "jpg")) := by
    simp [compress_image, hdec]
  rw [hc]
  cases hq : qualitySearch pil (pil.normalize img0) target 95 with
  | some out =>
    exact Or.inl (qualitySearchAux_le pil (pil.normalize img0) target 95 95 out hq)
  | none =>
    simpa using scaleSearchFrom_spec pil (pil.normalize img0) target 6 0

/-- Witness for C1: a concrete decodable input larger than the target, on
which the search fails everywhere and the fallback clause of the
disjunction holds. -/
theorem C1_witness :
    (toyPIL.decode [1, 2, 3] = some 3 ∧ 1 < ([1, 2, 3] : List Nat).length)
    ∧ (((compress_image toyPIL 1 [1, 2, 3]).1.length ≤ 1 ∨
        (compress_image toyPIL 1 [1, 2, 3]).1 =
          toyPIL.encode (toyPIL.resizeStep (toyPIL.normalize 3) 6) 60)
      ∧ ∀ data2, data2 = [1, 2, 3] →
          compress_image toyPIL 1 data2 = compress_image toyPIL 1 [1, 2, 3]) :=
  ⟨⟨by decide, by decide⟩,
    C1_budget_or_fallback toyPIL 1 [1, 2, 3] 3 (by decide) (by decide)⟩

/-- Abstract model of the base64 codec used by compress_base64_image:
`decode` is base64.b64decode, with none standing for the exception that
the function catches (source lines 106-108); `encode` is
base64.b64encode(...).decode('utf-8'). -/
structure B64Model where
  decode : String → Option (List Nat)
  encode : List Nat → String

/-- compress_base64_image (source lines 86-108): decode the payload; if it
is already within the target return the original string with the
was-compressed flag false; otherwise compress, re-encode to base64 and
return it flagged true; a decode failure falls into the except branch,
returning the original string with zero sizes and flag false. -/
def compress_base64_image {Img : Type} (pil : PILModel Img) (b64 : B64Model)
    (target : Nat) (base64_string : String) : String × Nat × Nat × Bool :=
  match b64.decode base64_string with
  | none => (base64_string, 0, 0, false)
  | some image_data =>
    let original_size := image_data.length
    if original_size ≤ target then
      (base64_string, original_size, original_size, false)
    else
      let compressed_data := (compress_image pil target image_data).1
      (b64.encode compressed_data, original_size, compressed_data.length, true)

/-- Statistics accumulated by the BinData loop of process_hwpx
(source lines 186-246). -/
structure BinStats where
  compressed_count : Nat
  skipped_count : Nat
  total_original_size : Nat
  total_compressed_size : Nat
deriving DecidableEq, Repr

/-- Initial statistics (source lines 186-189). -/
def initBinStats : BinStats := ⟨0, 0, 0, 0⟩

/-- One iteration of the BinData loop of process_hwpx (source lines
203-246) on a file whose contents are `data`.  The original size always
joins total_original_size; a file already within the target is counted
skipped, its size re-added as its compressed size, and nothing is written
(the second component none models the absent open-for-write); otherwise
compress_image runs, its output is written back over the same path (some)
and the file is counted compressed regardless of which codec path
produced the bytes. -/
def binStep {Img : Type} (pil : PILModel Img) (target : Nat) (st : BinStats)
    (data : List Nat) : BinStats × Option (List Nat) :=
  let original_size := data.length
  let st1 := { st with total_original_size := st.total_original_size + original_size }
  if original_size ≤ target then
    ({ st1 with
        total_compressed_size := st1.total_compressed_size + original_size,
        skipped_count := st1.skipped_count + 1 }, none)
  else
    let compressed_data := (compress_image pil target data).1
    ({ st1 with
        compressed_count := st1.compressed_count + 1,
        total_compressed_size := st1.total_compressed_size + compressed_data.length },
      some compressed_data)

/-- Concrete base64 model for closed evaluations: a string decodes to one
byte per character. -/
def toyB64 : B64Model where
  decode s := some (s.toList.map Char.toNat)
  encode bs := String.mk (bs.map Char.ofNat)

/-- Element forest modelling the xml.etree.ElementTree node tree: nil is
an empty child/sibling list, node carries the attribute dictionary
(elem.attrib, keys unique), the forest of child elements and the forest
of following siblings.  A document root is a single node with nil next. -/
inductive XForest where
  | nil : XForest
  | node (attrs : List (String × String)) (children : XForest) (next : XForest) : XForest
deriving DecidableEq, Repr

/-- Dictionary lookup, modelling `key in elem.attrib` / `elem.attrib[key]`. -/
def getAttr (attrs : List (String × String)) (key : String) : Option String :=
  (attrs.find? (fun p => p.1 = key)).map Prod.snd

/-- Dictionary update, modelling `elem.attrib[key] = val` on an existing
key (the scanner only assigns to a key it just read). -/
def setAttr (attrs : List (String × String)) (key val : String) :
    List (String × String) :=
  attrs.map (fun p => if p.1 = key then (key, val) else p)

/-- Per-element body of the bin-attribute loop of process_xml_images
(source lines 129-142): when the element carries a 'bin' attribute longer
than 100 characters, compress it; if compression happened, write the new
value back and report (1, orig, comp); in every other case leave the
attributes alone and report zeros.  The inner try/except of lines 133-142
never fires in the model because compress_base64_image is total. -/
def rewriteBinAttr {Img : Type} (pil : PILModel Img) (b64 : B64Model)
    (target : Nat) (attrs : List (String × String)) :
    List (String × String) × Nat × Nat × Nat :=
  match getAttr attrs "bin" with
  | none => (attrs, 0, 0, 0)
  | some base64_str =>
    if 100 < base64_str.length then
      let r := compress_base64_image pil b64 target base64_str
      if r.2.2.2 then (setAttr attrs "bin" r.1, 1, r.2.1, r.2.2.1)
      else (attrs, 0, 0, 0)
    else (attrs, 0, 0, 0)

/-- The root.iter() traversal of the bin loop (source lines 129-142),
applied to every element of the forest, accumulating
(compressed_count, total_original, total_compressed). -/
def rewriteForest {Img : Type} (pil : PILModel Img) (b64 : B64Model)
    (target : Nat) : XForest → XForest × Nat × Nat × Nat
  | .nil => (.nil, 0, 0, 0)
  | .node attrs children next =>
    let ra := rewriteBinAttr pil b64 target attrs
    let rc := rewriteForest pil b64 target children
    let rn := rewriteForest pil b64 target next
    (.node ra.1 rc.1 rn.1, ra.2.1 + rc.2.1 + rn.2.1,
      ra.2.2.1 + rc.2.2.1 + rn.2.2.1, ra.2.2.2 + rc.2.2.2 + rn.2.2.2)

/-- The second traversal of process_xml_images (source lines 144-148):
for every element carrying a 'fillImagePath' attribute the body is `pass`
— an explicit branch that takes no action, since that reference is the
Binary Asset Processor's job.  Both arms of the conditional return the
element untouched, mirroring that the loop never mutates anything. -/
def fillImagePathScan : XForest → XForest
  | .nil => .nil
  | .node attrs children next =>
    if (getAttr attrs "fillImagePath").isSome then
      .node attrs (fillImagePathScan children) (fillImagePathScan next)
    else
      .node attrs (fillImagePathScan children) (fillImagePathScan next)

/-- Abstract model of the ElementTree text codec: `parse` is
ET.fromstring on the document bytes (none standing for the ParseError
caught at source lines 155-157), `tostring` is
ET.tostring(root, encoding='utf-8'). -/
structure XMLModel where
  parse : List Nat → Option XForest
  tostring : XForest → List Nat

/-- process_xml_images (source lines 110-157): parse the document, rewrite
the 'bin' attributes, run the no-action fillImagePath scan, and serialize
only if something was modified — the modified flag of line 128-140 is set
exactly when compressed_count was incremented, so it is cnt > 0 here.  A
parse failure lands in the except branch: the original text comes back
with zero counts. -/
def process_xml_images {Img : Type} (pil : PILModel Img) (b64 : B64Model)
    (xml : XMLModel) (target : Nat) (xml_content : List Nat) :
    List Nat × Nat × Nat × Nat :=
  match xml.parse xml_content with
  | none => (xml_content, 0, 0, 0)
  | some root =>
    let r := rewriteForest pil b64 target root
    let root2 := fillImagePathScan r.1
    if 0 < r.2.1 then (xml.tostring root2, r.2.1, r.2.2.1, r.2.2.2)
    else (xml_content, 0, 0, 0)

/-- The XML stage of process_hwpx (source lines 262-298): each document is
read, processed by process_xml_images, written back when its count is
positive (when the count is zero the returned text is the original, so
writing is the identity), and the per-document counts are summed.  The
per-document try/except of lines 277-298 recovers locally, so one
document never stops the loop. -/
def xmlPassDocs {Img : Type} (pil : PILModel Img) (b64 : B64Model)
    (xml : XMLModel) (target : Nat) :
    List (List Nat) → List (List Nat) × Nat × Nat × Nat
  | [] => ([], 0, 0, 0)
  | d :: rest =>
    let r := process_xml_images pil b64 xml target d
    let rr := xmlPassDocs pil b64 xml target rest
    (r.1 :: rr.1, r.2.1 + rr.2.1, r.2.2.1 + rr.2.2.1, r.2.2.2 + rr.2.2.2)

/-- C2: an image already within the target budget bypasses the codec on
both paths.  In the BinData loop the skip branch performs no write (the
file keeps its bytes verbatim), increments only the skipped count and
leaves the compressed count alone — compress_image is not reached; in
compress_base64_image the original base64 string comes back unchanged
with the was-compressed flag false. -/
theorem C2_small_images_skipped {Img : Type} (pil : PILModel Img)
    (b64 : B64Model) (target : Nat) :
    (∀ st data, data.length ≤ target →
      binStep pil target st data =
        ({ st with
            total_original_size := st.total_original_size + data.length,
            total_compressed_size := st.total_compressed_size + data.length,
            skipped_count := st.skipped_count + 1 }, none))
    ∧ ∀ s d, b64.decode s = some d → d.length ≤ target →
        compress_base64_image pil b64 target s = (s, d.length, d.length, false) := by
  constructor
  · intro st data h
    simp [binStep, h]
  · intro s d hdec h
    simp [compress_base64_image, hdec, h]

/-- Witness for C2 at a concrete small image. -/
theorem C2_witness :
    (([5, 6] : List Nat).length ≤ 100 ∧
      binStep toyPIL 100 initBinStats [5, 6] =
        ({ initBinStats with
            total_original_size := 2,
            total_compressed_size := 2,
            skipped_count := 1 }, none))
    ∧ (toyB64.decode "ab" = some [97, 98] ∧
      compress_base64_image toyPIL toyB64 100 "ab" = ("ab", 2, 2, false)) :=
  ⟨⟨by decide,
      (C2_small_images_skipped toyPIL toyB64 100).1 initBinStats [5, 6] (by decide)⟩,
    ⟨by decide,
      (C2_small_images_skipped toyPIL toyB64 100).2 "ab" [97, 98] (by decide) (by decide)⟩⟩

/-- Concrete XML model for closed evaluations: the empty byte string fails
to parse, everything else parses to a fixed attribute-free element. -/
def toyXML : XMLModel where
  parse bs := if bs.length = 0 then none else some (.node [] .nil .nil)
  tostring _ := [60]

/-- C6: a document whose text fails to parse comes back from
process_xml_images unchanged with zero count and zero byte totals, and the
XML stage processes every document independently — the output text list is
the per-document map and the compressed count is the per-document sum, so
one failing document never aborts the run nor prevents the others from
being processed and counted. -/
theorem C6_parse_failure_recovered {Img : Type} (pil : PILModel Img)
    (b64 : B64Model) (xml : XMLModel) (target : Nat) :
    (∀ c, xml.parse c = none →
      process_xml_images pil b64 xml target c = (c, 0, 0, 0))
    ∧ (∀ docs, (xmlPassDocs pil b64 xml target docs).1 =
        docs.map (fun d => (process_xml_images pil b64 xml target d).1))
    ∧ (∀ docs, (xmlPassDocs pil b64 xml target docs).2.1 =
        (docs.map (fun d => (process_xml_images pil b64 xml target d).2.1)).sum) := by
  refine ⟨fun c h => by simp [process_xml_images, h], ?_, ?_⟩
  · intro docs
    induction docs with
    | nil => simp [xmlPassDocs]
    | cons d rest ih => simp [xmlPassDocs, ih]
  · intro docs
    induction docs with
    | nil => simp [xmlPassDocs]
    | cons d rest ih => simp [xmlPassDocs, ih]

/-- Witness for C6 at a concrete unparseable document. -/
theorem C6_witness :
    toyXML.parse [] = none ∧
      process_xml_images toyPIL toyB64 toyXML 100 [] = ([], 0, 0, 0) :=
  ⟨by decide,
    (C6_parse_failure_recovered toyPIL toyB64 toyXML 100).1 [] (by decide)⟩

/-- Attribute dictionary with the inline-image key removed; two
dictionaries agree under this map exactly when they agree on every other
key, 'fillImagePath' included. -/
def eraseBinAttrs (attrs : List (String × String)) : List (String × String) :=
  attrs.filter (fun p => p.1 != "bin")

/-- Forest with every 'bin' attribute removed. -/
def eraseBinForest : XForest → XForest
  | .nil => .nil
  | .node attrs children next =>
    .node (eraseBinAttrs attrs) (eraseBinForest children) (eraseBinForest next)

/-- Whether any element of the forest carries a 'bin' attribute. -/
def hasBinAttr : XForest → Bool
  | .nil => false
  | .node attrs children next =>
    (getAttr attrs "bin").isSome || hasBinAttr children || hasBinAttr next

theorem eraseBinAttrs_setAttr (attrs : List (String × String)) (v : String) :
    eraseBinAttrs (setAttr attrs "bin" v) = eraseBinAttrs attrs := by
  induction attrs with
  | nil => rfl
  | cons p rest ih =>
    by_cases h : p.1 = "bin"
    · simp [eraseBinAttrs, setAttr, List.filter_cons, h] at ih ⊢
      exact ih
    · have hb : (p.1 != "bin") = true := by simp [h]
      simp [eraseBinAttrs, setAttr, List.filter_cons, h, hb] at ih ⊢
      exact ih

theorem eraseBinAttrs_rewriteBinAttr {Img : Type} (pil : PILModel Img)
    (b64 : B64Model) (target : Nat) (attrs : List (String × String)) :
    eraseBinAttrs (rewriteBinAttr pil b64 target attrs).1 = eraseBinAttrs attrs := by
  unfold rewriteBinAttr
  cases h : getAttr attrs "bin" with
  | none => rfl
  | some s =>
    by_cases hlen : 100 < s.length
    · by_cases hw : (compress_base64_image pil b64 target s).2.2.2
      · simp [hlen, hw, eraseBinAttrs_setAttr]
      · simp [hlen, hw]
    · simp [hlen]

theorem rewriteForest_no_bin {Img : Type} (pil : PILModel Img) (b64 : B64Model)
    (target : Nat) :
    ∀ t : XForest, hasBinAttr t = false →
      rewriteForest pil b64 target t = (t, 0, 0, 0) := by
  intro t
  induction t with
  | nil => intro _; rfl
  | node attrs children next ihc ihn =>
    intro h
    simp only [hasBinAttr, Bool.or_eq_false_iff] at h
    obtain ⟨⟨ha, hc⟩, hn⟩ := h
    have hnone : getAttr attrs "bin" = none :=
      Option.not_isSome_iff_eq_none.mp (by simp [ha])
    simp [rewriteForest, rewriteBinAttr, hnone, ihc hc, ihn hn]

/-- C8: the Embedded-Image Scanner takes no action on the external
reference key.  The fillImagePath traversal is an explicit branch that
returns every element untouched; the bin rewrite changes nothing outside
the 'bin' key (the forests agree once 'bin' attributes are erased, so
every 'fillImagePath' value survives verbatim); and a forest carrying no
'bin' attribute at all — 'fillImagePath' elements included — is returned
unchanged with zero compressed count and zero byte totals. -/
theorem C8_fillImagePath_no_action {Img : Type} (pil : PILModel Img)
    (b64 : B64Model) (target : Nat) :
    (∀ t, fillImagePathScan t = t)
    ∧ (∀ t, eraseBinForest (rewriteForest pil b64 target t).1 = eraseBinForest t)
    ∧ (∀ t, hasBinAttr t = false →
        rewriteForest pil b64 target t = (t, 0, 0, 0)) := by
  refine ⟨?_, ?_, rewriteForest_no_bin pil b64 target⟩
  · intro t
    induction t with
    | nil => rfl
    | node attrs children next ihc ihn => simp [fillImagePathScan, ihc, ihn]
  · intro t
    induction t with
    | nil => rfl
    | node attrs children next ihc ihn =>
      simp [rewriteForest, eraseBinForest, ihc, ihn,
        eraseBinAttrs_rewriteBinAttr]

/-- Relative path of an archive entry or scratch file, one directory
component per element. -/
abbrev EntryPath := List String

/-- One entry of the ZIP container: its relative path, whether it is a
directory entry, and its bytes (empty for directories). -/
structure ZEntry where
  path : EntryPath
  isDir : Bool
  data : List Nat
deriving DecidableEq, Repr

/-- zip_ref.extractall(temp_dir) (source lines 181-182): file entries
become scratch files at their relative paths; directory entries only
create directories, which hold no data and which the repackaging walk
never passes to zipf.write.  Paths inside one archive are assumed
distinct, as extraction onto a filesystem forces. -/
def extractedFiles (ar : List ZEntry) : List (EntryPath × List Nat) :=
  (ar.filter (fun e => !e.isDir)).map (fun e => (e.path, e.data))

/-- ASCII lower-casing of one character, modelling str.lower() on the
ASCII file names the archive holds. -/
def lowerChar (c : Char) : Char :=
  if 65 ≤ c.toNat ∧ c.toNat ≤ 90 then Char.ofNat (c.toNat + 32) else c

/-- str.lower(). -/
def lowerStr (s : String) : String := String.mk (s.data.map lowerChar)

/-- str.endswith(post). -/
def strEndsWith (s post : String) : Bool :=
  Nat.ble post.data.length s.data.length &&
    decide (s.data.drop (s.data.length - post.data.length) = post.data)

/-- f.lower().endswith(('.png', '.jpg', '.jpeg', '.bmp', '.gif'))
(source lines 192-194). -/
def hasImageExt (name : String) : Bool :=
  [".png", ".jpg", ".jpeg", ".bmp", ".gif"].any
    (fun ext => strEndsWith (lowerStr name) ext)

/-- Whether a scratch file is one the BinData stage enumerates: an
immediate child of the BinData directory whose name carries an image
extension (source lines 185-194, os.listdir of temp_dir/BinData). -/
def isBinDataImage : EntryPath → Bool
  | [d, n] => d == "BinData" && hasImageExt n
  | _ => false

/-- Whether a scratch file is one the XML stage enumerates: an immediate
child of the Contents directory whose name ends in .xml (source lines
249-254). -/
def isContentsXml : EntryPath → Bool
  | [d, n] => d == "Contents" && strEndsWith n ".xml"
  | _ => false

/-- Stable insertion keeping the list ordered by descending byte size;
together with sortBySizeDesc this models
image_info.sort(key=os.path.getsize, reverse=True) (source lines
200-201), which is Python's stable sort on the sizes read before the
loop. -/
def insertBySize (x : EntryPath × List Nat) :
    List (EntryPath × List Nat) → List (EntryPath × List Nat)
  | [] => [x]
  | y :: ys =>
    if y.2.length ≤ x.2.length then x :: y :: ys else y :: insertBySize x ys

/-- Descending stable sort by byte size. -/
def sortBySizeDesc : List (EntryPath × List Nat) → List (EntryPath × List Nat)
  | [] => []
  | x :: xs => insertBySize x (sortBySizeDesc xs)

/-- open(path, 'wb').write(data) on the scratch tree: the file at that
path gets the new bytes, every other file is untouched. -/
def writeFile (tree : List (EntryPath × List Nat)) (p : EntryPath)
    (d : List Nat) : List (EntryPath × List Nat) :=
  tree.map (fun f => if f.1 = p then (f.1, d) else f)

/-- The BinData loop of process_hwpx (source lines 203-246) over the
snapshot of files taken before the loop: each file is read, put through
binStep, and written back over its own path when binStep compressed it.
Each BinData file is visited exactly once and writes touch only the file
being processed, so reading from the snapshot is the on-disk behaviour. -/
def binPassGo {Img : Type} (pil : PILModel Img) (target : Nat) :
    List (EntryPath × List Nat) → BinStats → List (EntryPath × List Nat) →
      List (EntryPath × List Nat) × BinStats
  | tree, st, [] => (tree, st)
  | tree, st, f :: rest =>
    let r := binStep pil target st f.2
    match r.2 with
    | none => binPassGo pil target tree r.1 rest
    | some d => binPassGo pil target (writeFile tree f.1 d) r.1 rest

/-- Stage 2 of process_hwpx (source lines 184-246): enumerate the BinData
images, sort them by descending size, and run the loop. -/
def binPass {Img : Type} (pil : PILModel Img) (target : Nat)
    (tree : List (EntryPath × List Nat)) :
    List (EntryPath × List Nat) × BinStats :=
  binPassGo pil target tree initBinStats
    (sortBySizeDesc (tree.filter (fun f => isBinDataImage f.1)))

/-- The XML loop of process_hwpx (source lines 256-298) over the snapshot
of Contents documents: each is processed by process_xml_images and
written back only when its compressed count is positive. -/
def xmlPassGo {Img : Type} (pil : PILModel Img) (b64 : B64Model)
    (xml : XMLModel) (target : Nat) :
    List (EntryPath × List Nat) → List (EntryPath × List Nat) →
      List (EntryPath × List Nat) × Nat × Nat × Nat
  | tree, [] => (tree, 0, 0, 0)
  | tree, f :: rest =>
    let r := process_xml_images pil b64 xml target f.2
    let tree2 := if 0 < r.2.1 then writeFile tree f.1 r.1 else tree
    let rr := xmlPassGo pil b64 xml target tree2 rest
    (rr.1, r.2.1 + rr.2.1, r.2.2.1 + rr.2.2.1, r.2.2.2 + rr.2.2.2)

/-- Stage 3 of process_hwpx (source lines 248-298). -/
def xmlPassTree {Img : Type} (pil : PILModel Img) (b64 : B64Model)
    (xml : XMLModel) (target : Nat) (tree : List (EntryPath × List Nat)) :
    List (EntryPath × List Nat) × Nat × Nat × Nat :=
  xmlPassGo pil b64 xml target tree (tree.filter (fun f => isContentsXml f.1))

/-- process_hwpx at the archive-content level (source lines 159-318):
extract the entries into the scratch tree, run the BinData stage then the
XML stage, and repack.  The repackaging walk (lines 306-311) iterates
`for root, dirs, files in os.walk: for file in files` — only files are
passed to zipf.write, each under its relative path, so the output archive
holds exactly the scratch files and never a directory entry.  Returns the
output entries, the BinData statistics and the XML statistics triple
(compressed count, original bytes, compressed bytes). -/
def process_hwpx_tree {Img : Type} (pil : PILModel Img) (b64 : B64Model)
    (xml : XMLModel) (target : Nat) (ar : List ZEntry) :
    List ZEntry × BinStats × Nat × Nat × Nat :=
  let tree := extractedFiles ar
  let rb := binPass pil target tree
  let rx := xmlPassTree pil b64 xml target rb.1
  (rx.1.map (fun f => ⟨f.1, false, f.2⟩), rb.2, rx.2)

theorem writeFile_map_fst (tree : List (EntryPath × List Nat))
    (p : EntryPath) (d : List Nat) :
    (writeFile tree p d).map Prod.fst = tree.map Prod.fst := by
  induction tree with
  | nil => rfl
  | cons f rest ih =>
    by_cases h : f.1 = p
    · simpa [writeFile, h] using ih
    · simpa [writeFile, h] using ih

theorem binPassGo_map_fst {Img : Type} (pil : PILModel Img) (target : Nat) :
    ∀ files tree st,
      ((binPassGo pil target tree st files).1).map Prod.fst =
        tree.map Prod.fst := by
  intro files
  induction files with
  | nil => intro tree st; rfl
  | cons f rest ih =>
    intro tree st
    cases h : (binStep pil target st f.2).2 with
    | none => simp [binPassGo, h, ih]
    | some d => simp [binPassGo, h, ih, writeFile_map_fst]

theorem xmlPassGo_map_fst {Img : Type} (pil : PILModel Img) (b64 : B64Model)
    (xml : XMLModel) (target : Nat) :
    ∀ files tree,
      ((xmlPassGo pil b64 xml target tree files).1).map Prod.fst =
        tree.map Prod.fst := by
  intro files
  induction files with
  | nil => intro tree; rfl
  | cons f rest ih =>
    intro tree
    by_cases h : 0 < (process_xml_images pil b64 xml target f.2).2.1
    · simp [xmlPassGo, h, ih, writeFile_map_fst]
    · simp [xmlPassGo, h, ih]

/-- C4 (amended): the repackaged archive holds exactly the input's file
entries — same relative paths, none added, none dropped — and every
output entry is a file entry.  Directory entries of the input are not
reproduced: the os.walk repack loop only writes files. -/
theorem C4_file_entries_preserved {Img : Type} (pil : PILModel Img)
    (b64 : B64Model) (xml : XMLModel) (target : Nat) (ar : List ZEntry) :
    (process_hwpx_tree pil b64 xml target ar).1.map ZEntry.path =
      (ar.filter (fun e => !e.isDir)).map ZEntry.path
    ∧ ∀ e ∈ (process_hwpx_tree pil b64 xml target ar).1, e.isDir = false := by
  constructor
  · show ((xmlPassGo pil b64 xml target (binPass pil target
        (extractedFiles ar)).1 _).1.map (fun f =>
          (⟨f.1, false, f.2⟩ : ZEntry))).map ZEntry.path = _
    rw [List.map_map]
    have h1 : (ZEntry.path ∘ fun f : EntryPath × List Nat =>
        (⟨f.1, false, f.2⟩ : ZEntry)) = Prod.fst := rfl
    rw [h1, xmlPassGo_map_fst]
    unfold binPass
    rw [binPassGo_map_fst]
    simp [extractedFiles, List.map_map]
  · intro e he
    simp only [process_hwpx_tree, List.mem_map] at he
    obtain ⟨f, _, hf⟩ := he
    rw [← hf]

/-- Counterexample to C4 as stated: an archive holding a directory entry
loses it — the output of the pipeline on a one-directory archive has no
entries at all, so the output entry-path set differs from the input's. -/
theorem C4_counterexample :
    (process_hwpx_tree toyPIL toyB64 toyXML 200
        [⟨["BinData"], true, []⟩]).1.map ZEntry.path ≠
      [["BinData"]] := by decide

theorem qualitySearchAux_encodes {Img : Type} (pil : PILModel Img) (img : Img)
    (target : Nat) :
    ∀ fuel q out, qualitySearchAux pil img target fuel q = some out →
      ∃ lv, out = pil.encode img lv := by
  intro fuel
  induction fuel with
  | zero => intro q out h; simp [qualitySearchAux] at h
  | succ n ih =>
    intro q out h
    by_cases h5 : 5 < q
    · by_cases hle : (pil.encode img q).length ≤ target
      · simp [qualitySearchAux, h5, hle] at h
        exact ⟨q, h.symm⟩
      · simp [qualitySearchAux, h5, hle] at h
        exact ih _ _ h
    · simp [qualitySearchAux, h5] at h

theorem scaleSearchFrom_encodes {Img : Type} (pil : PILModel Img) (img : Img)
    (target : Nat) :
    ∀ remaining k, ∃ i lv,
      scaleSearchFrom pil img target remaining k = pil.encode i lv := by
  intro remaining
  induction remaining with
  | zero =>
    intro k
    by_cases hle : (pil.encode (pil.resizeStep img k) 85).length ≤ target
    · exact ⟨pil.resizeStep img k, 85, by simp [scaleSearchFrom, hle]⟩
    · exact ⟨pil.resizeStep img k, 60, by simp [scaleSearchFrom, hle]⟩
  | succ n ih =>
    intro k
    by_cases hle : (pil.encode (pil.resizeStep img k) 85).length ≤ target
    · exact ⟨pil.resizeStep img k, 85, by simp [scaleSearchFrom, hle]⟩
    · obtain ⟨i, lv, hi⟩ := ih (k + 1)
      exact ⟨i, lv, by simp [scaleSearchFrom, hle, hi]⟩

/-- C10: whatever the input format, every successfully decoded image is
re-emitted by the JPEG encoder — the outcome tag is 'jpg' and the output
bytes are an encode-model result — and the BinData stage keeps every
scratch-file path unchanged (results are written back over the asset's
own path), so names and extensions survive even when the extension no
longer matches the JPEG contents. -/
theorem C10_jpeg_output_path_preserved {Img : Type} (pil : PILModel Img)
    (target : Nat) :
    (∀ data img0, pil.decode data = some img0 →
      (compress_image pil target data).2 = "jpg" ∧
        ∃ i lv, (compress_image pil target data).1 = pil.encode i lv)
    ∧ ∀ tree, ((binPass pil target tree).1).map Prod.fst =
        tree.map Prod.fst := by
  constructor
  · intro data img0 hdec
    have hc : compress_image pil target data =
        (match qualitySearch pil (pil.normalize img0) target 95 with
          | some out => (out, "jpg")
          | none => (scaleSearchFrom pil (pil.normalize img0) target 6 0, "jpg")) := by
      simp [compress_image, hdec]
    rw [hc]
    cases hq : qualitySearch pil (pil.normalize img0) target 95 with
    | some out =>
      refine ⟨rfl, ?_⟩
      obtain ⟨lv, hlv⟩ :=
        qualitySearchAux_encodes pil (pil.normalize img0) target 95 95 out hq
      exact ⟨pil.normalize img0, lv, hlv⟩
    | none =>
      exact ⟨rfl, scaleSearchFrom_encodes pil (pil.normalize img0) target 6 0⟩
  · intro tree
    exact binPassGo_map_fst pil target _ tree initBinStats

/-- Budget condition on the bin attributes of a forest: every inline
payload the scanner would decode — a bin attribute longer than 100
characters whose base64 decodes — is already within the target. -/
def binAttrsWithinBudget (b64 : B64Model) (target : Nat) : XForest → Prop
  | .nil => True
  | .node attrs children next =>
    (∀ v, getAttr attrs "bin" = some v → 100 < v.length →
      ∀ d, b64.decode v = some d → d.length ≤ target)
    ∧ binAttrsWithinBudget b64 target children
    ∧ binAttrsWithinBudget b64 target next

/-- Every image of a scratch tree is within the target budget: each
BinData asset's bytes, and each inline payload of each parseable Contents
document. -/
def treeWithinBudget (b64 : B64Model) (xml : XMLModel) (target : Nat)
    (tree : List (EntryPath × List Nat)) : Prop :=
  (∀ f ∈ tree, isBinDataImage f.1 = true → f.2.length ≤ target)
  ∧ (∀ f ∈ tree, isContentsXml f.1 = true →
      ∀ root, xml.parse f.2 = some root → binAttrsWithinBudget b64 target root)

theorem mem_insertBySize (x y : EntryPath × List Nat) :
    ∀ l, y ∈ insertBySize x l ↔ y = x ∨ y ∈ l := by
  intro l
  induction l with
  | nil => simp [insertBySize]
  | cons z zs ih =>
    by_cases h : z.2.length ≤ x.2.length
    · simp [insertBySize, h]
    · simp [insertBySize, h, ih]
      tauto

theorem mem_sortBySizeDesc (y : EntryPath × List Nat) :
    ∀ l, y ∈ sortBySizeDesc l ↔ y ∈ l := by
  intro l
  induction l with
  | nil => simp [sortBySizeDesc]
  | cons x xs ih => simp [sortBySizeDesc, mem_insertBySize, ih]

theorem length_insertBySize (x : EntryPath × List Nat) :
    ∀ l, (insertBySize x l).length = l.length + 1 := by
  intro l
  induction l with
  | nil => rfl
  | cons z zs ih =>
    by_cases h : z.2.length ≤ x.2.length
    · simp [insertBySize, h]
    · simp [insertBySize, h, ih]

theorem length_sortBySizeDesc :
    ∀ l, (sortBySizeDesc l).length = l.length := by
  intro l
  induction l with
  | nil => rfl
  | cons x xs ih => simp [sortBySizeDesc, length_insertBySize, ih]

theorem binPassGo_all_skip {Img : Type} (pil : PILModel Img) (target : Nat) :
    ∀ files tree st, (∀ f ∈ files, f.2.length ≤ target) →
      (binPassGo pil target tree st files).1 = tree
      ∧ ((binPassGo pil target tree st files).2).compressed_count =
          st.compressed_count
      ∧ ((binPassGo pil target tree st files).2).skipped_count =
          st.skipped_count + files.length := by
  intro files
  induction files with
  | nil => intro tree st _; exact ⟨rfl, rfl, rfl⟩
  | cons f rest ih =>
    intro tree st h
    have hf : f.2.length ≤ target := h f (by simp)
    have hrest : ∀ g ∈ rest, g.2.length ≤ target := fun g hg => h g (by simp [hg])
    have h2 : (binStep pil target st f.2).2 = none := by simp [binStep, hf]
    have hcc : ((binStep pil target st f.2).1).compressed_count =
        st.compressed_count := by simp [binStep, hf]
    have hsc : ((binStep pil target st f.2).1).skipped_count =
        st.skipped_count + 1 := by simp [binStep, hf]
    have hgo : binPassGo pil target tree st (f :: rest) =
        binPassGo pil target tree ((binStep pil target st f.2).1) rest := by
      simp [binPassGo, h2]
    obtain ⟨ha, hb, hc⟩ := ih tree ((binStep pil target st f.2).1) hrest
    refine ⟨hgo ▸ ha, ?_, ?_⟩
    · rw [hgo, hb, hcc]
    · rw [hgo, hc, hsc, List.length_cons]
      omega

theorem rewriteBinAttr_zero {Img : Type} (pil : PILModel Img) (b64 : B64Model)
    (target : Nat) (attrs : List (String × String))
    (h : ∀ v, getAttr attrs "bin" = some v → 100 < v.length →
      ∀ d, b64.decode v = some d → d.length ≤ target) :
    rewriteBinAttr pil b64 target attrs = (attrs, 0, 0, 0) := by
  unfold rewriteBinAttr
  cases hg : getAttr attrs "bin" with
  | none => rfl
  | some v =>
    by_cases hlen : 100 < v.length
    · have hflag : (compress_base64_image pil b64 target v).2.2.2 = false := by
        cases hd : b64.decode v with
        | none => simp [compress_base64_image, hd]
        | some d => simp [compress_base64_image, hd, h v hg hlen d hd]
      simp [hlen, hflag]
    · simp [hlen]

theorem rewriteForest_zero {Img : Type} (pil : PILModel Img) (b64 : B64Model)
    (target : Nat) :
    ∀ t, binAttrsWithinBudget b64 target t →
      rewriteForest pil b64 target t = (t, 0, 0, 0) := by
  intro t
  induction t with
  | nil => intro _; rfl
  | node attrs children next ihc ihn =>
    intro h
    obtain ⟨ha, hc, hn⟩ := h
    simp [rewriteForest, rewriteBinAttr_zero pil b64 target attrs ha,
      ihc hc, ihn hn]

theorem process_xml_images_zero {Img : Type} (pil : PILModel Img)
    (b64 : B64Model) (xml : XMLModel) (target : Nat) (c : List Nat)
    (h : ∀ root, xml.parse c = some root → binAttrsWithinBudget b64 target root) :
    process_xml_images pil b64 xml target c = (c, 0, 0, 0) := by
  unfold process_xml_images
  cases hp : xml.parse c with
  | none => rfl
  | some root => simp [rewriteForest_zero pil b64 target root (h root hp)]

theorem xmlPassGo_all_zero {Img : Type} (pil : PILModel Img) (b64 : B64Model)
    (xml : XMLModel) (target : Nat) :
    ∀ files tree,
      (∀ f ∈ files, process_xml_images pil b64 xml target f.2 = (f.2, 0, 0, 0)) →
      xmlPassGo pil b64 xml target tree files = (tree, 0, 0, 0) := by
  intro files
  induction files with
  | nil => intro tree _; rfl
  | cons f rest ih =>
    intro tree h
    have hf := h f (by simp)
    have hrest : ∀ g ∈ rest, process_xml_images pil b64 xml target g.2 =
        (g.2, 0, 0, 0) := fun g hg => h g (by simp [hg])
    simp [xmlPassGo, hf, ih tree hrest]

theorem run_all_skipped {Img : Type} (pil : PILModel Img) (b64 : B64Model)
    (xml : XMLModel) (target : Nat) (ar : List ZEntry)
    (h : treeWithinBudget b64 xml target (extractedFiles ar)) :
    ((process_hwpx_tree pil b64 xml target ar).2.1).compressed_count = 0
    ∧ ((process_hwpx_tree pil b64 xml target ar).2.1).skipped_count =
        ((extractedFiles ar).filter (fun f => isBinDataImage f.1)).length
    ∧ (process_hwpx_tree pil b64 xml target ar).2.2.1 = 0 := by
  obtain ⟨h1, h2⟩ := h
  have hb : ∀ f ∈ sortBySizeDesc
      ((extractedFiles ar).filter (fun f => isBinDataImage f.1)),
      f.2.length ≤ target := by
    intro f hf
    rw [mem_sortBySizeDesc] at hf
    have hm := List.mem_filter.mp hf
    exact h1 f hm.1 hm.2
  obtain ⟨hbt, hbc, hbs⟩ := binPassGo_all_skip pil target
    (sortBySizeDesc ((extractedFiles ar).filter (fun f => isBinDataImage f.1)))
    (extractedFiles ar) initBinStats hb
  have hbin : binPass pil target (extractedFiles ar) =
      (extractedFiles ar,
        (binPassGo pil target (extractedFiles ar) initBinStats
          (sortBySizeDesc ((extractedFiles ar).filter
            (fun f => isBinDataImage f.1)))).2) := by
    unfold binPass
    exact Prod.ext hbt rfl
  have hxzero : ∀ f ∈ (extractedFiles ar).filter (fun f => isContentsXml f.1),
      process_xml_images pil b64 xml target f.2 = (f.2, 0, 0, 0) := by
    intro f hf
    have hm := List.mem_filter.mp hf
    exact process_xml_images_zero pil b64 xml target f.2
      (fun root hr => h2 f hm.1 (by simpa using hm.2) root hr)
  have hxml : xmlPassTree pil b64 xml target (extractedFiles ar) =
      (extractedFiles ar, 0, 0, 0) := by
    unfold xmlPassTree
    exact xmlPassGo_all_zero pil b64 xml target _ _ hxzero
  have hout : process_hwpx_tree pil b64 xml target ar =
      ((extractedFiles ar).map (fun f => ⟨f.1, false, f.2⟩),
        (binPassGo pil target (extractedFiles ar) initBinStats
          (sortBySizeDesc ((extractedFiles ar).filter
            (fun f => isBinDataImage f.1)))).2, 0, 0, 0) := by
    unfold process_hwpx_tree
    dsimp only
    rw [hbin]
    dsimp only
    rw [hxml]
  rw [hout]
  refine ⟨by simpa [initBinStats] using hbc, ?_, rfl⟩
  simpa [initBinStats, length_sortBySizeDesc] using hbs

/-- C5 (amended): re-running the pipeline on its own output with the same
target yields all-skipped counts on the second pass, provided every image
in the first run's output is within the target budget — which the fallback
path alone may violate, its quality-60 result being allowed to exceed the
target.  On the second run the BinData stage compresses nothing and skips
every enumerated asset, and the XML stage compresses nothing. -/
theorem C5_second_run_all_skipped {Img : Type} (pil : PILModel Img)
    (b64 : B64Model) (xml : XMLModel) (target : Nat) (ar : List ZEntry)
    (h : treeWithinBudget b64 xml target
      (extractedFiles (process_hwpx_tree pil b64 xml target ar).1)) :
    ((process_hwpx_tree pil b64 xml target
        ((process_hwpx_tree pil b64 xml target ar).1)).2.1).compressed_count = 0
    ∧ ((process_hwpx_tree pil b64 xml target
        ((process_hwpx_tree pil b64 xml target ar).1)).2.1).skipped_count =
        ((extractedFiles (process_hwpx_tree pil b64 xml target ar).1).filter
          (fun f => isBinDataImage f.1)).length
    ∧ (process_hwpx_tree pil b64 xml target
        ((process_hwpx_tree pil b64 xml target ar).1)).2.2.1 = 0 :=
  run_all_skipped pil b64 xml target _ h

/-- PIL model on which every JPEG encoding is 30 bytes, so with a 10-byte
target no candidate ever fits and the fallback result still exceeds the
budget — the situation the real encoder reaches when even the
quality-60, scale-0.3 candidate is larger than the target. -/
def bigPIL : PILModel Nat where
  decode bs := if bs.length = 0 then none else some bs.length
  normalize n := n
  encode _ _ := List.replicate 30 7
  resizeStep n _ := n

/-- Counterexample to C5 as stated: one BinData asset of 20 bytes against
a 10-byte target; the first run compresses it through the fallback to 30
bytes, and the second run — the pipeline on its own output with the same
target — compresses it again instead of skipping everything. -/
theorem C5_counterexample :
    ¬ (((process_hwpx_tree bigPIL toyB64 toyXML 10
        ((process_hwpx_tree bigPIL toyB64 toyXML 10
          [⟨["BinData", "a.png"], false, List.replicate 20 1⟩]).1)).2.1).compressed_count
      = 0) := by
  decide

/-- Archive used by the C5 witness: one small BinData asset. -/
def arW : List ZEntry := [⟨["BinData", "a.png"], false, [1, 2]⟩]

/-- Witness for C5 at a concrete archive whose first-run output is within
budget. -/
theorem C5_witness :
    treeWithinBudget toyB64 toyXML 100
        (extractedFiles (process_hwpx_tree toyPIL toyB64 toyXML 100 arW).1)
    ∧ (((process_hwpx_tree toyPIL toyB64 toyXML 100
          ((process_hwpx_tree toyPIL toyB64 toyXML 100 arW).1)).2.1).compressed_count = 0
      ∧ ((process_hwpx_tree toyPIL toyB64 toyXML 100
          ((process_hwpx_tree toyPIL toyB64 toyXML 100 arW).1)).2.1).skipped_count =
          ((extractedFiles (process_hwpx_tree toyPIL toyB64 toyXML 100 arW).1).filter
            (fun f => isBinDataImage f.1)).length
      ∧ (process_hwpx_tree toyPIL toyB64 toyXML 100
          ((process_hwpx_tree toyPIL toyB64 toyXML 100 arW).1)).2.2.1 = 0) := by
  have he : extractedFiles (process_hwpx_tree toyPIL toyB64 toyXML 100 arW).1 =
      [(["BinData", "a.png"], [1, 2])] := by decide
  have h : treeWithinBudget toyB64 toyXML 100
      (extractedFiles (process_hwpx_tree toyPIL toyB64 toyXML 100 arW).1) := by
    rw [he]
    constructor
    · intro f hf _
      have := List.mem_singleton.mp hf
      subst this
      decide
    · intro f hf hc
      have := List.mem_singleton.mp hf
      subst this
      exact absurd hc (by decide)
  exact ⟨h, C5_second_run_all_skipped toyPIL toyB64 toyXML 100 arW h⟩

/-- Witness for C10 at a concrete decodable input. -/
theorem C10_witness :
    toyPIL.decode [1, 2] = some 2 ∧
      ((compress_image toyPIL 1 [1, 2]).2 = "jpg" ∧
        ∃ i lv, (compress_image toyPIL 1 [1, 2]).1 = toyPIL.encode i lv) :=
  ⟨by decide, (C10_jpeg_output_path_preserved toyPIL 1).1 [1, 2] 2 (by decide)⟩

/-- Witness for C8 at a concrete element carrying only a fillImagePath
attribute. -/
theorem C8_witness :
    hasBinAttr (.node [("fillImagePath", "BinData/image1.png")] .nil .nil) = false ∧
      rewriteForest toyPIL toyB64 100
          (.node [("fillImagePath", "BinData/image1.png")] .nil .nil) =
        (.node [("fillImagePath", "BinData/image1.png")] .nil .nil, 0, 0, 0) :=
  ⟨by decide,
    (C8_fillImagePath_no_action toyPIL toyB64 100).2.2
      (.node [("fillImagePath", "BinData/image1.png")] .nil .nil) (by decide)⟩

/-- Filesystem events of process_hwpx that touch the scratch directory or
mark a stage of the try block: shutil.rmtree(temp_dir),
os.makedirs(temp_dir), the extraction, the two processing stages, and the
repackaging write. -/
inductive FsEvent where
  | rmtreeScratch
  | makeScratch
  | extractArchive
  | binDataStage
  | xmlStage
  | repackStage
deriving DecidableEq, Repr

/-- Effect of one event on whether the scratch directory exists. -/
def scratchStep (b : Bool) : FsEvent → Bool
  | .rmtreeScratch => false
  | .makeScratch => true
  | _ => b

/-- Whether the scratch directory exists after a sequence of events,
starting from the given prior state. -/
def scratchExistsAfter (initial : Bool) (evs : List FsEvent) : Bool :=
  evs.foldl scratchStep initial

/-- The stages of the try block in program order (source lines 174-311). -/
def pipelineStages : List FsEvent :=
  [.extractArchive, .binDataStage, .xmlStage, .repackStage]

/-- Scratch-related trace of one process_hwpx run past input validation
(source lines 168-351), as a function of whether a prior occupant sits at
the scratch path and of where, if anywhere, the body raises.  Lines
168-171: if os.path.exists(temp_dir) then rmtree, then makedirs.  On the
success path the four stages run and line 313 removes the scratch area
before the statistics are returned.  When stage k raises, the except
branch of lines 346-351 removes the scratch area if it still exists and
returns the failure result. -/
def process_hwpx_events (priorExists : Bool) (failAt : Option (Fin 4)) :
    List FsEvent × Bool :=
  let pre := (if priorExists then [FsEvent.rmtreeScratch] else []) ++
    [FsEvent.makeScratch]
  match failAt with
  | none => (pre ++ pipelineStages ++ [FsEvent.rmtreeScratch], true)
  | some k =>
    let body := pre ++ pipelineStages.take (k.val + 1)
    let cleanup :=
      if scratchExistsAfter priorExists body then [FsEvent.rmtreeScratch]
      else []
    (body ++ cleanup, false)

/-- C9: the scratch-area invariant.  A prior occupant is destroyed first
of all, before the run unpacks anything; the scratch directory does not
exist when the run returns, on the success path and on every failure
path; the success trace deletes it right after repackaging; and every
failure trace ends with the best-effort deletion. -/
theorem C9_scratch_lifecycle (priorExists : Bool) (failAt : Option (Fin 4)) :
    (priorExists = true →
      (process_hwpx_events priorExists failAt).1.head? =
        some FsEvent.rmtreeScratch)
    ∧ scratchExistsAfter priorExists
        (process_hwpx_events priorExists failAt).1 = false
    ∧ (failAt = none →
      (process_hwpx_events priorExists failAt).1 =
        (if priorExists then [FsEvent.rmtreeScratch] else []) ++
          [FsEvent.makeScratch, FsEvent.extractArchive, FsEvent.binDataStage,
            FsEvent.xmlStage, FsEvent.repackStage, FsEvent.rmtreeScratch])
    ∧ ∀ k, failAt = some k →
        (process_hwpx_events priorExists failAt).1.getLast? =
          some FsEvent.rmtreeScratch := by
  revert priorExists failAt
  decide

/-- Witness for C9 on a run with a prior occupant failing at the XML
stage. -/
theorem C9_witness :
    (process_hwpx_events true (some 2)).1.head? = some FsEvent.rmtreeScratch
    ∧ scratchExistsAfter true (process_hwpx_events true (some 2)).1 = false
    ∧ (process_hwpx_events true (some 2)).1.getLast? =
        some FsEvent.rmtreeScratch :=
  ⟨(C9_scratch_lifecycle true (some 2)).1 rfl,
    (C9_scratch_lifecycle true (some 2)).2.1,
    (C9_scratch_lifecycle true (some 2)).2.2.2 2 rfl⟩
